import Mathlib

/-
  Verification development for the lakebook-to-Markdown converter
  (src/lakebook2md.py, class LakebookConverter).

  The embedding is shallow: pure Python string processing becomes Lean
  functions on String / List Char; the filesystem side effects of the
  converter (payload files, output files) become explicit data threaded
  through the functions; Python exceptions become an Except monad.

  The HTML handling of the script delegates to BeautifulSoup with the
  permissive builder named html.parser.  That library is modelled here by
  a small permissive tokenizer and tree builder that agrees with it on the
  inputs the claims are about.  HTML character entities are not decoded or
  re-encoded by the model; none of the claims depends on entity handling.
  Tree-shaped recursions take an explicit fuel argument so that every
  definition is structural and evaluates inside the kernel; the converter
  always supplies fuel that is large enough for its input.
-/

namespace Lakebook2Md

/-! ## HTML document model -/

/-- A node of the parsed HTML tree: either a text node (a NavigableString
in BeautifulSoup terms) or an element with a tag name, attributes and
children. -/
inductive Node where
  | text (s : String)
  | elem (tag : String) (attrs : List (String × String)) (children : List Node)

/-- Tokens produced by the HTML tokenizer. -/
inductive Token where
  | chunk (s : String)
  | startTag (name : String) (attrs : List (String × String)) (selfClosing : Bool)
  | endTag (name : String)
deriving DecidableEq

/-- Characters allowed in a tag name, per the tagfind pattern of the
html.parser module. -/
def isNameChar (c : Char) : Bool :=
  c.isAlphanum || c = '-' || c = '.' || c = ':' || c = '_'

/-- ASCII whitespace as recognized inside tags by html.parser. -/
def isSpaceChar (c : Char) : Bool :=
  c = ' ' || c = '\t' || c = '\n' || c = '\r' || c = '\x0c'

/-- Whitespace stripped by the Python str.strip method (ASCII part). -/
def isWsChar (c : Char) : Bool :=
  c = ' ' || c = '\t' || c = '\n' || c = '\r' || c = '\x0b' || c = '\x0c'

/-- Lowercase a scanned name, as html.parser lowercases tag and attribute
names. -/
def nameStr (l : List Char) : String :=
  String.mk (l.map Char.toLower)

/-- Characters that may appear in an attribute name. -/
def isAttrNameChar (c : Char) : Bool :=
  !(isSpaceChar c) && c != '=' && c != '>' && c != '/'

/-- Scan the attribute list of a start tag, ending after the closing
angle bracket.  Returns the attributes, whether the tag was written
self-closing, and the remaining input.  The fuel bounds the recursion;
callers pass the length of the input plus one. -/
def parseAttrs : Nat → List Char → List (String × String) × Bool × List Char
  | 0, l => ([], false, l)
  | fuel + 1, l =>
    match l.dropWhile isSpaceChar with
    | [] => ([], false, [])
    | '>' :: r => ([], false, r)
    | '/' :: r =>
      match r with
      | '>' :: r2 => ([], true, r2)
      | _ => parseAttrs fuel r
    | c :: r =>
      let nm := (c :: r).takeWhile isAttrNameChar
      let r2 := (c :: r).dropWhile isAttrNameChar
      if nm.isEmpty then
        parseAttrs fuel r
      else
        match r2.dropWhile isSpaceChar with
        | '=' :: r4 =>
          match r4.dropWhile isSpaceChar with
          | '"' :: r6 =>
            let v := r6.takeWhile (fun c => c != '"')
            let r7 := (r6.dropWhile (fun c => c != '"')).drop 1
            let (attrs, sc, rest) := parseAttrs fuel r7
            ((nameStr nm, String.mk v) :: attrs, sc, rest)
          | '\'' :: r6 =>
            let v := r6.takeWhile (fun c => c != '\'')
            let r7 := (r6.dropWhile (fun c => c != '\'')).drop 1
            let (attrs, sc, rest) := parseAttrs fuel r7
            ((nameStr nm, String.mk v) :: attrs, sc, rest)
          | r5 =>
            let v := r5.takeWhile (fun c => !(isSpaceChar c) && c != '>')
            let r7 := r5.dropWhile (fun c => !(isSpaceChar c) && c != '>')
            let (attrs, sc, rest) := parseAttrs fuel r7
            ((nameStr nm, String.mk v) :: attrs, sc, rest)
        | r3 =>
          let (attrs, sc, rest) := parseAttrs fuel r3
          ((nameStr nm, "") :: attrs, sc, rest)

/-- Drop input up to and including the next closing angle bracket. -/
def skipPastGt (l : List Char) : List Char :=
  (l.dropWhile (fun c => c != '>')).drop 1

/-- Tokenize an HTML fragment permissively: well-formed tags become tag
tokens, everything else is text.  A left angle bracket not followed by a
letter, slash or bang is treated as text, as html.parser does.  The fuel
bounds the recursion; each step consumes at least one character, so the
input length plus one is always enough. -/
def tokenize : Nat → List Char → List Token
  | 0, _ => []
  | _ + 1, [] => []
  | fuel + 1, c :: rest =>
    if c = '<' then
      match rest with
      | [] => [Token.chunk "<"]
      | c2 :: r2 =>
        if c2 = '/' then
          let nm := r2.takeWhile isNameChar
          let r3 := r2.dropWhile isNameChar
          if nm.isEmpty then
            tokenize fuel (skipPastGt r3)
          else
            Token.endTag (nameStr nm) :: tokenize fuel (skipPastGt r3)
        else if c2 = '!' then
          tokenize fuel (skipPastGt r2)
        else if c2.isAlpha then
          let nm := (c2 :: r2).takeWhile isNameChar
          let r3 := (c2 :: r2).dropWhile isNameChar
          let (attrs, sc, r4) := parseAttrs (r3.length + 1) r3
          Token.startTag (nameStr nm) attrs sc :: tokenize fuel r4
        else
          Token.chunk "<" :: tokenize fuel rest
    else
      Token.chunk (String.mk (c :: rest.takeWhile (fun x => x != '<'))) ::
        tokenize fuel (rest.dropWhile (fun x => x != '<'))

/-- HTML void elements: they never take children and close immediately. -/
def voidTags : List String :=
  ["area", "base", "br", "col", "embed", "hr", "img", "input",
   "link", "meta", "param", "source", "track", "wbr"]

/-- An open element on the builder stack; children are accumulated in
reverse order. -/
structure Frame where
  tag : String
  attrs : List (String × String)
  rchildren : List Node

/-- Builder state: the stack of open elements and the reversed list of
completed top-level nodes. -/
abbrev BuildState := List Frame × List Node

/-- Attach a completed node to the innermost open element, or to the top
level when no element is open. -/
def pushNode (n : Node) : BuildState → BuildState
  | ([], acc) => ([], n :: acc)
  | (fr :: fs, acc) => ({ fr with rchildren := n :: fr.rchildren } :: fs, acc)

/-- Close the innermost open element and attach it to its parent. -/
def popFrame : BuildState → BuildState
  | ([], acc) => ([], acc)
  | (fr :: fs, acc) => pushNode (Node.elem fr.tag fr.attrs fr.rchildren.reverse) (fs, acc)

/-- Close open elements until one with the given tag name has been
closed, as BeautifulSoup does for an end tag with intervening unclosed
elements.  The fuel bounds the recursion by the stack depth. -/
def popToTag (name : String) : Nat → BuildState → BuildState
  | 0, st => st
  | _ + 1, ([], acc) => ([], acc)
  | fuel + 1, (fr :: fs, acc) =>
    if fr.tag = name then popFrame (fr :: fs, acc)
    else popToTag name fuel (popFrame (fr :: fs, acc))

/-- Close every element still open at end of input and return the
top-level nodes in document order. -/
def closeAll : Nat → BuildState → List Node
  | 0, (_, acc) => acc.reverse
  | _ + 1, ([], acc) => acc.reverse
  | fuel + 1, (fr :: fs, acc) => closeAll fuel (popFrame (fr :: fs, acc))

/-- Build the node tree from the token stream.  A start tag of a void
element yields a childless element; an end tag with no matching open
element is ignored. -/
def buildTokens : List Token → BuildState → List Node
  | [], (frames, acc) => closeAll (frames.length + 1) (frames, acc)
  | Token.chunk s :: rest, st => buildTokens rest (pushNode (Node.text s) st)
  | Token.startTag t attrs sc :: rest, st =>
    if voidTags.contains t || sc then
      buildTokens rest (pushNode (Node.elem t attrs []) st)
    else
      buildTokens rest ((⟨t, attrs, []⟩ : Frame) :: st.1, st.2)
  | Token.endTag t :: rest, (frames, acc) =>
    if frames.any (fun fr => fr.tag = t) then
      buildTokens rest (popToTag t (frames.length + 1) (frames, acc))
    else
      buildTokens rest (frames, acc)

/-- Parse an HTML string into a list of top-level nodes, the model of
BeautifulSoup(html_content, html.parser). -/
def parseHtml (s : String) : List Node :=
  buildTokens (tokenize (s.length + 1) s.data) ([], [])

/-! ## The tag rewriting passes of convert_html_to_markdown -/

/-- First attribute value for a key, with a default, the model of the
BeautifulSoup Tag.get method. -/
def lookupAttr (attrs : List (String × String)) (key dflt : String) : String :=
  match attrs with
  | [] => dflt
  | (k, v) :: rest => if k = key then v else lookupAttr rest key dflt

/-- Concatenated text of a node list, the model of Tag.get_text. -/
def getTextF : Nat → List Node → String
  | 0, _ => ""
  | _ + 1, [] => ""
  | fuel + 1, Node.text s :: rest => s ++ getTextF fuel rest
  | fuel + 1, Node.elem _ _ ch :: rest => getTextF fuel ch ++ getTextF fuel rest

/-- Pass 1 of the converter: insert the text "\n\n" after every p or br
element, anywhere in the tree. -/
def insertPBrF : Nat → List Node → List Node
  | 0, l => l
  | _ + 1, [] => []
  | fuel + 1, Node.text s :: rest => Node.text s :: insertPBrF fuel rest
  | fuel + 1, Node.elem t a ch :: rest =>
    if t = "p" || t = "br" then
      Node.elem t a (insertPBrF fuel ch) :: Node.text "\n\n" :: insertPBrF fuel rest
    else
      Node.elem t a (insertPBrF fuel ch) :: insertPBrF fuel rest

/-- Pass 2: replace the contents of every outermost strong element by its
text wrapped in double asterisks.  The element itself stays in the tree;
only its string content is replaced, as the assignment to Tag.string
does. -/
def strongPassF : Nat → List Node → List Node
  | 0, l => l
  | _ + 1, [] => []
  | fuel + 1, Node.text s :: rest => Node.text s :: strongPassF fuel rest
  | fuel + 1, Node.elem t a ch :: rest =>
    if t = "strong" then
      Node.elem t a [Node.text ("**" ++ getTextF (fuel + 1) ch ++ "**")] :: strongPassF fuel rest
    else
      Node.elem t a (strongPassF fuel ch) :: strongPassF fuel rest

/-- Pass 3: the same for em elements, with single asterisks. -/
def emPassF : Nat → List Node → List Node
  | 0, l => l
  | _ + 1, [] => []
  | fuel + 1, Node.text s :: rest => Node.text s :: emPassF fuel rest
  | fuel + 1, Node.elem t a ch :: rest =>
    if t = "em" then
      Node.elem t a [Node.text ("*" ++ getTextF (fuel + 1) ch ++ "*")] :: emPassF fuel rest
    else
      Node.elem t a (emPassF fuel ch) :: emPassF fuel rest

/-- Pass 4: replace every img element by the Markdown image text, with alt
defaulting to the word image and src to the empty string. -/
def imgPassF : Nat → List Node → List Node
  | 0, l => l
  | _ + 1, [] => []
  | fuel + 1, Node.text s :: rest => Node.text s :: imgPassF fuel rest
  | fuel + 1, Node.elem t a ch :: rest =>
    if t = "img" then
      Node.text ("![" ++ lookupAttr a "alt" "image" ++ "](" ++ lookupAttr a "src" "" ++ ")") ::
        imgPassF fuel rest
    else
      Node.elem t a (imgPassF fuel ch) :: imgPassF fuel rest

/-- Pass 5: replace every a element by the Markdown link text built from
its rendered text and href attribute. -/
def aPassF : Nat → List Node → List Node
  | 0, l => l
  | _ + 1, [] => []
  | fuel + 1, Node.text s :: rest => Node.text s :: aPassF fuel rest
  | fuel + 1, Node.elem t a ch :: rest =>
    if t = "a" then
      Node.text ("[" ++ getTextF (fuel + 1) ch ++ "](" ++ lookupAttr a "href" "" ++ ")") ::
        aPassF fuel rest
    else
      Node.elem t a (aPassF fuel ch) :: aPassF fuel rest

/-- Serialize attributes the way BeautifulSoup prints them. -/
def attrsString : List (String × String) → String
  | [] => ""
  | (k, v) :: rest => " " ++ k ++ "=\"" ++ v ++ "\"" ++ attrsString rest

/-- Serialize a node list back to a string, the model of str(soup).  Void
elements print self-closed, others print with an end tag. -/
def serializeNodesF : Nat → List Node → String
  | 0, _ => ""
  | _ + 1, [] => ""
  | fuel + 1, Node.text s :: rest => s ++ serializeNodesF fuel rest
  | fuel + 1, Node.elem t a ch :: rest =>
    if voidTags.contains t then
      "<" ++ t ++ attrsString a ++ "/>" ++ serializeNodesF fuel rest
    else
      "<" ++ t ++ attrsString a ++ ">" ++ serializeNodesF fuel ch ++ "</" ++ t ++ ">" ++
        serializeNodesF fuel rest

/-! ## Whitespace normalization -/

/-- Cap every maximal run of the character c at cap occurrences, the model
of the two re.sub calls: for newline with cap two this is the regex that
rewrites three or more newlines to two, for space with cap one it is the
regex that rewrites two or more spaces to one.  The counter k records how
many characters of the current run have been seen. -/
def capRunAux (c : Char) (cap : Nat) : Nat → List Char → List Char
  | _, [] => []
  | k, x :: xs =>
    if x = c then
      if k < cap then c :: capRunAux c cap (k + 1) xs
      else capRunAux c cap (k + 1) xs
    else
      x :: capRunAux c cap 0 xs

/-- Cap maximal runs of c at cap, starting outside any run. -/
def capRun (c : Char) (cap : Nat) (l : List Char) : List Char :=
  capRunAux c cap 0 l

/-- Remove leading whitespace, the left half of str.strip. -/
def stripLeft (l : List Char) : List Char :=
  l.dropWhile isWsChar

/-- Remove trailing whitespace, the right half of str.strip. -/
def stripRight (l : List Char) : List Char :=
  (stripLeft l.reverse).reverse

/-- The model of str.strip: drop whitespace from both ends. -/
def stripChars (l : List Char) : List Char :=
  stripRight (stripLeft l)

/-- Decision procedure for the fixed points of capRun: true when no
maximal run of c in l exceeds cap, where k counts the occurrences of c
immediately preceding the current position. -/
def okRunsAux (c : Char) (cap : Nat) : Nat → List Char → Bool
  | _, [] => true
  | k, x :: xs =>
    if x = c then
      if k + 1 ≤ cap then okRunsAux c cap (k + 1) xs else false
    else okRunsAux c cap 0 xs

/-- No maximal run of c in l is longer than cap. -/
def okRuns (c : Char) (cap : Nat) (l : List Char) : Bool :=
  okRunsAux c cap 0 l

/-- The fuel supplied to the tree passes; always sufficient for the trees
the parser produces from the given string. -/
def treeFuel (s : String) : Nat :=
  8 * s.length + 8

/-- The model of LakebookConverter.convert_html_to_markdown: parse the
HTML permissively, run the five tag rewriting passes in order, serialize,
collapse newline runs of three or more to two, collapse space runs of two
or more to one, and strip the ends. -/
def convert_html_to_markdown (html : String) : String :=
  let fuel := treeFuel html
  let tree := parseHtml html
  let t1 := insertPBrF fuel tree
  let t2 := strongPassF fuel t1
  let t3 := emPassF fuel t2
  let t4 := imgPassF fuel t3
  let t5 := aPassF fuel t4
  let raw := serializeNodesF fuel t5
  String.mk (stripChars (capRun ' ' 1 (capRun '\n' 2 raw.data)))

/-! ## Converter model

The rest of the script: archive extraction, the nested manifest parse,
per-document processing and the batch loop.  Python exceptions are
modelled with Except; an uncaught exception in the script corresponds to
an error value that propagates to the caller.  The json and yaml parsers
are external libraries, so a file is modelled by the outcome of parsing
it rather than by its raw bytes. -/

/-- The Python exceptions the script can raise or catch. -/
inductive PyError where
  | keyError (k : String)
  | typeError
  | jsonDecodeError
  | yamlError
  | tarReadError
deriving DecidableEq

/-- JSON values, restricted to the shapes the converter inspects. -/
inductive Json where
  | str (s : String)
  | obj (fields : List (String × Json))
  | other

/-- Field lookup in a JSON object. -/
def jsonLookup (fs : List (String × Json)) (k : String) : Option Json :=
  match fs with
  | [] => none
  | (k2, v) :: rest => if k2 = k then some v else jsonLookup rest k

/-- The nested body string of a document payload, the chain
content of doc of body in process_doc.  Every failing shape (missing key,
non-object step, non-string body) raises inside the try block of
process_doc and is represented by none. -/
def docBody? : Json → Option String
  | Json.obj fs =>
    match jsonLookup fs "doc" with
    | some (Json.obj fs2) =>
      match jsonLookup fs2 "body" with
      | some (Json.str s) => some s
      | _ => none
    | _ => none
  | _ => none

/-- A payload file on disk, modelled by its parse outcome. -/
inductive FileModel where
  | missing
  | badJson
  | json (v : Json)

/-- A TOC entry as the YAML parse delivers it: a record whose fields may
be absent.  Reading an absent field with square brackets raises KeyError
in Python; reading it with get yields the supplied default. -/
structure TocEntry where
  type : Option String
  title : Option String
  url : Option String
  uuid : Option String
deriving DecidableEq

/-- Outcome of the nested manifest parse chain of
process_single_lakebook: json.load on the meta file, the lookup of the
meta field, json.loads of that string, the lookups of book and tocYml,
and yaml.safe_load of the result.  Each failing constructor names the
exception the corresponding Python stage raises; none of these stages is
inside a try block. -/
inductive MetaOutcome where
  | badJson
  | keyErr (k : String)
  | typeErr
  | badInnerJson
  | badYaml
  | toc (entries : List TocEntry)

/-- One extracted archive, modelled by everything the converter reads
from it: the file stem, whether tarfile.open succeeds, the top-level
entries of the scratch directory after extraction, whether the manifest
file exists, the outcome of the nested manifest parse, and the payload
files keyed by the url string of the TOC entry that locates them. -/
structure ArchiveModel where
  stem : String
  tarOk : Bool
  rootEntries : List (String × Bool)
  hasMeta : Bool
  metaOutcome : MetaOutcome
  docs : List (String × FileModel)

/-- Payload file lookup by url; a url with no file is a missing file. -/
def lookupFile (docs : List (String × FileModel)) (url : String) : FileModel :=
  match docs with
  | [] => FileModel.missing
  | (u, f) :: rest => if u = url then f else lookupFile rest url

/-- Mutable converter state: the processed_files set created in the
constructor of LakebookConverter, and the files written to the output
directory as (folder, filename, content) with newest write winning. -/
structure ConvState where
  processed_files : List String
  written : List (String × String × String)
deriving DecidableEq

/-- The state of a fresh LakebookConverter over an empty output tree. -/
def initState : ConvState := ⟨[], []⟩

/-- Write a file, deleting any previous file of the same name first, as
process_doc unlinks an existing output file before writing. -/
def writeFile (w : List (String × String × String)) (folder name content : String) :
    List (String × String × String) :=
  (folder, name, content) :: w.filter (fun e => !(e.1 = folder && e.2.1 = name))

/-- Does the first non-hidden top-level directory exist, and which is it:
the loop over the scratch directory at the end of extract_lakebook. -/
def findRootDir : List (String × Bool) → Option String
  | [] => none
  | (n, isDir) :: rest =>
    if isDir && !(match n.data with | [] => false | c :: _ => c = '.') then some n
    else findRootDir rest

/-- The model of LakebookConverter.extract_lakebook: opening a corrupt
archive raises (uncaught); otherwise the first non-hidden top-level
directory is returned, or none when there is none. -/
def extract_lakebook (a : ArchiveModel) : Except PyError (Option String) :=
  if a.tarOk then Except.ok (findRootDir a.rootEntries) else Except.error PyError.tarReadError

/-- Characters replaced by underscore when a title becomes a filename. -/
def isBadFileChar (c : Char) : Bool :=
  c = '\\' || c = '/' || c = '*' || c = '?' || c = ':' || c = '"' ||
  c = '<' || c = '>' || c = '|'

/-- The model of the re.sub call of process_doc that builds safe_title:
each filesystem-unsafe character is replaced by an underscore. -/
def sanitizeTitle (t : String) : String :=
  String.mk (t.data.map (fun c => if isBadFileChar c then '_' else c))

/-- Last path component, the model of the name property of a Path. -/
def pathFileName (p : String) : String :=
  String.mk ((p.data.reverse.takeWhile (fun c => c != '/')).reverse)

/-- Default title for an entry without one (the Chinese placeholder used
by the script). -/
def untitledDoc : String := "未命名文档"

/-- The model of LakebookConverter.process_doc.  The title and the
payload path are computed before the try block, so a missing url key
raises KeyError out of the function.  A previously seen document identity
returns False without touching anything.  Every failure inside the try
block (missing payload file, unparseable payload, missing nested body)
returns False with the identity already recorded.  On success the output
file is written and True is returned. -/
def process_doc (a : ArchiveModel) (doc_data : TocEntry) (output_folder : String)
    (st : ConvState) : Except PyError (Bool × ConvState) :=
  let title := doc_data.title.getD untitledDoc
  match doc_data.url with
  | none => Except.error (PyError.keyError "url")
  | some url =>
    let doc_id := doc_data.uuid.getD (pathFileName (url ++ ".json"))
    if doc_id ∈ st.processed_files then
      Except.ok (false, st)
    else
      let st2 : ConvState := { st with processed_files := doc_id :: st.processed_files }
      match lookupFile a.docs url with
      | FileModel.missing => Except.ok (false, st2)
      | FileModel.badJson => Except.ok (false, st2)
      | FileModel.json v =>
        match docBody? v with
        | none => Except.ok (false, st2)
        | some html =>
          let markdown := convert_html_to_markdown html
          let safe_title := sanitizeTitle title
          let content := "# " ++ title ++ "\n\n" ++ markdown
          Except.ok (true,
            { st2 with written := writeFile st2.written output_folder (safe_title ++ ".md") content })

/-- Lift the manifest parse outcome into the exception monad; every
failing stage raises uncaught in process_single_lakebook. -/
def metaToc (m : MetaOutcome) : Except PyError (List TocEntry) :=
  match m with
  | MetaOutcome.badJson => Except.error PyError.jsonDecodeError
  | MetaOutcome.keyErr k => Except.error (PyError.keyError k)
  | MetaOutcome.typeErr => Except.error PyError.typeError
  | MetaOutcome.badInnerJson => Except.error PyError.jsonDecodeError
  | MetaOutcome.badYaml => Except.error PyError.yamlError
  | MetaOutcome.toc es => Except.ok es

/-- The TOC loop of process_single_lakebook: entries whose type field is
DOC go through process_doc and successes are counted; reading the type
field of an entry without one raises KeyError uncaught. -/
def processToc (a : ArchiveModel) (output_folder : String) :
    List TocEntry → ConvState → Except PyError (Nat × ConvState)
  | [], st => Except.ok (0, st)
  | item :: rest, st =>
    match item.type with
    | none => Except.error (PyError.keyError "type")
    | some ty =>
      if ty = "DOC" then
        match process_doc a item output_folder st with
        | Except.error e => Except.error e
        | Except.ok (ok, st2) =>
          match processToc a output_folder rest st2 with
          | Except.error e => Except.error e
          | Except.ok (n, st3) => Except.ok ((if ok then 1 else 0) + n, st3)
      else
        processToc a output_folder rest st

/-- The model of LakebookConverter.process_single_lakebook: extract, fail
softly (return False) when no root directory or no manifest file is
found, parse the nested manifest with every parse failure raising
uncaught, then run the TOC loop and return True. -/
def process_single_lakebook (a : ArchiveModel) (st : ConvState) :
    Except PyError (Bool × ConvState) :=
  match extract_lakebook a with
  | Except.error e => Except.error e
  | Except.ok none => Except.ok (false, st)
  | Except.ok (some _) =>
    if a.hasMeta then
      match metaToc a.metaOutcome with
      | Except.error e => Except.error e
      | Except.ok toc =>
        match processToc a ("output/" ++ a.stem) toc st with
        | Except.error e => Except.error e
        | Except.ok (_, st2) => Except.ok (true, st2)
    else
      Except.ok (false, st)

/-- The archive loop of process_directory: archives are processed in
sequence on the shared converter state, successes are counted, and an
exception from any archive propagates (there is no try around the
loop). -/
def processBatch : List ArchiveModel → ConvState → Except PyError (Nat × ConvState)
  | [], st => Except.ok (0, st)
  | a :: rest, st =>
    match process_single_lakebook a st with
    | Except.error e => Except.error e
    | Except.ok (ok, st2) =>
      match processBatch rest st2 with
      | Except.error e => Except.error e
      | Except.ok (n, st3) => Except.ok ((if ok then 1 else 0) + n, st3)

/-- The model of LakebookConverter.process_directory: with no matching
archives the batch fails as a whole; otherwise the archives are processed
in sequence and the aggregate count reported. -/
def process_directory (archives : List ArchiveModel) (st : ConvState) :
    Except PyError (Bool × Nat × ConvState) :=
  match archives with
  | [] => Except.ok (false, 0, st)
  | _ :: _ =>
    match processBatch archives st with
    | Except.error e => Except.error e
    | Except.ok (n, st2) => Except.ok (true, n, st2)

/-! ## Derived notions used in the claim statements -/

/-- A string with no left angle bracket: plain text for the permissive
parser, in particular free of every tag the Transcoder handles. -/
def plainOutput (s : String) : Bool :=
  s.data.all (fun c => c != '<')

/-- Erase all whitespace, used to compare strings up to the whitespace
layout that the paragraph-break and collapsing rules determine. -/
def stripAllWs (s : String) : String :=
  String.mk (s.data.filter (fun c => !isWsChar c))

/-- The document identity process_doc computes for an entry whose url
field holds u: the uuid, with the payload file name as fallback. -/
def docIdFor (e : TocEntry) (u : String) : String :=
  e.uuid.getD (pathFileName (u ++ ".json"))

/-! ## Concrete instances for the counterexamples and witnesses -/

/-- A well-formed payload file whose nested body is the given HTML. -/
def mkPayload (body : String) : FileModel :=
  FileModel.json (Json.obj [("doc", Json.obj [("body", Json.str body)])])

/-- A DOC entry with every field present. -/
def mkDocEntry (title url uid : String) : TocEntry :=
  ⟨some "DOC", some title, some url, some uid⟩

/-- A fully well-formed archive holding one DOC entry and its payload. -/
def mkGoodArchive (stem title url uid body : String) : ArchiveModel :=
  ⟨stem, true, [("book", true)], true, MetaOutcome.toc [mkDocEntry title url uid],
   [(url, mkPayload body)]⟩

/-- A valid archive used as the sibling in batch counterexamples. -/
def goodArchive : ArchiveModel := mkGoodArchive "good" "T" "d1" "u1" "hi"

/-- An archive whose manifest file exists but whose meta field is not
valid JSON: stage two of the nested parse fails. -/
def badMetaArchive : ArchiveModel :=
  ⟨"bad", true, [("book", true)], true, MetaOutcome.badInnerJson, []⟩

/-- An archive that cannot be opened as a tar container. -/
def tarBadArchive : ArchiveModel :=
  ⟨"corrupt", false, [], false, MetaOutcome.toc [], []⟩

/-- An archive whose extraction yields no non-hidden top-level
directory. -/
def noRootArchive : ArchiveModel :=
  ⟨"noroot", true, [(".hidden", true), ("notes.txt", false)], false, MetaOutcome.toc [], []⟩

/-- A DOC entry lacking the url key. -/
def noUrlEntry : TocEntry := ⟨some "DOC", some "T5", none, some "u5"⟩

/-- An archive whose TOC contains the entry without a url. -/
def noUrlArchive : ArchiveModel :=
  ⟨"c5", true, [("book", true)], true, MetaOutcome.toc [noUrlEntry], []⟩

/-- A DOC entry whose payload file does not exist in its archive. -/
def missingPayloadEntry : TocEntry := mkDocEntry "T7" "nope" "u7"

/-- An archive with the entry above and no payload files at all. -/
def missingPayloadArchive : ArchiveModel :=
  ⟨"c7", true, [("book", true)], true, MetaOutcome.toc [missingPayloadEntry], []⟩

/-- Two DOC entries sharing a uuid, and the archive holding them. -/
def c8EntryOne : TocEntry := mkDocEntry "T8" "d8" "u8"

/-- The second entry with the same uuid but its own url and title. -/
def c8EntryTwo : TocEntry := mkDocEntry "T8other" "d8b" "u8"

/-- The archive whose TOC lists the same uuid twice. -/
def c8Archive : ArchiveModel :=
  ⟨"c8", true, [("book", true)], true, MetaOutcome.toc [c8EntryOne, c8EntryTwo],
   [("d8", mkPayload "hi"), ("d8b", mkPayload "bye")]⟩

/-- The concrete HTML body of the transcoding scenario of the spec. -/
def c2Input : String :=
  "<p>Hello <strong>world</strong></p><a href=\"http://x\">link</a><img src=\"http://y/z.png\">"

/-- What the Transcoder actually returns on that body: the p and strong
tags survive, because the script replaces the contents of those tags, not
the tags themselves. -/
def c2ActualOutput : String :=
  "<p>Hello <strong>**world**</strong></p>\n\n[link](http://x)![image](http://y/z.png)"

/-- The output the spec claims, up to whitespace. -/
def c2ClaimedOutput : String :=
  "Hello **world**[link](http://x)![image](http://y/z.png)"

/-- A second valid archive, sibling in batch counterexamples. -/
def goodArchive2 : ArchiveModel := mkGoodArchive "good2" "S" "d2" "u2" "yo"

/-- Two archives whose single documents share one uuid. -/
def dupArchiveA : ArchiveModel := mkGoodArchive "dupA" "TA" "da" "shared" "x"

/-- The second archive with the shared uuid. -/
def dupArchiveB : ArchiveModel := mkGoodArchive "dupB" "TB" "db" "shared" "y"

/-! ## Helper lemmas about the converter model -/

/-- Processing a fully well-formed one-document archive from a state that
has not seen its uuid converts the document and records the uuid. -/
theorem process_single_good (stem title url uid body : String) (st : ConvState)
    (h : uid ∉ st.processed_files) :
    process_single_lakebook (mkGoodArchive stem title url uid body) st =
      Except.ok (true, ⟨uid :: st.processed_files,
        writeFile st.written ("output/" ++ stem) (sanitizeTitle title ++ ".md")
          ("# " ++ title ++ "\n\n" ++ convert_html_to_markdown body)⟩) := by
  have hroot : findRootDir [("book", true)] = some "book" := rfl
  simp [process_single_lakebook, extract_lakebook, mkGoodArchive, hroot, metaToc,
    processToc, process_doc, mkDocEntry, mkPayload, lookupFile, docBody?, jsonLookup, h]

/-- Processing the same archive from a state that has already seen its
uuid still reports success for the archive but converts nothing. -/
theorem process_single_good_seen (stem title url uid body : String) (st : ConvState)
    (h : uid ∈ st.processed_files) :
    process_single_lakebook (mkGoodArchive stem title url uid body) st =
      Except.ok (true, st) := by
  have hroot : findRootDir [("book", true)] = some "book" := rfl
  simp [process_single_lakebook, extract_lakebook, mkGoodArchive, hroot, metaToc,
    processToc, process_doc, mkDocEntry, h]

/-! ## Claim C1 -/

/-- C1 counterexample: an archive whose manifest is present but whose meta
field is not valid JSON aborts the entire batch with an uncaught
JSONDecodeError, so the valid sibling archive is not processed, even
though on its own that sibling converts its document. -/
theorem c1_claim_false :
    process_directory [badMetaArchive, goodArchive] initState =
      Except.error PyError.jsonDecodeError ∧
    process_directory [goodArchive] initState =
      Except.ok (true, 1, ⟨["u1"], [("output/good", "T.md", "# T\n\nhi")]⟩) :=
  ⟨rfl, rfl⟩

/-- C1 amended: when the manifest file is present but any stage of the
nested parse chain fails, the exception escapes
process_single_lakebook uncaught (the archive converts nothing), and in a
batch the same exception aborts process_directory, so the remaining
archives are not processed. -/
theorem c1_meta_parse_failure_aborts_batch (a : ArchiveModel) (st : ConvState)
    (rest : List ArchiveModel) (e : PyError)
    (hm : a.hasMeta = true) (ht : a.tarOk = true)
    (hr : (findRootDir a.rootEntries).isSome = true)
    (ho : metaToc a.metaOutcome = Except.error e) :
    process_single_lakebook a st = Except.error e ∧
    processBatch (a :: rest) st = Except.error e ∧
    process_directory (a :: rest) st = Except.error e := by
  obtain ⟨r, hr2⟩ := Option.isSome_iff_exists.mp hr
  have h1 : process_single_lakebook a st = Except.error e := by
    simp [process_single_lakebook, extract_lakebook, ht, hr2, hm, ho]
  have h2 : processBatch (a :: rest) st = Except.error e := by
    simp [processBatch, h1]
  exact ⟨h1, h2, by simp [process_directory, h2]⟩

/-- C1 witness: the amended theorem applied to the concrete archive whose
meta field is not valid JSON. -/
theorem c1_meta_parse_failure_aborts_batch_witness :
    process_single_lakebook badMetaArchive initState = Except.error PyError.jsonDecodeError ∧
    processBatch [badMetaArchive] initState = Except.error PyError.jsonDecodeError ∧
    process_directory [badMetaArchive] initState = Except.error PyError.jsonDecodeError :=
  c1_meta_parse_failure_aborts_batch badMetaArchive initState [] PyError.jsonDecodeError
    rfl rfl rfl rfl

/-! ## Claim C2 -/

/-- C2 counterexample: on the concrete body of the scenario the Transcoder
keeps the p and strong tags in its output (only their inner text was
rewritten), so the result differs from the claimed string even after
erasing all whitespace; no whitespace layout reconciles them. -/
theorem c2_claim_false :
    convert_html_to_markdown c2Input = c2ActualOutput ∧
    stripAllWs c2ActualOutput ≠ stripAllWs c2ClaimedOutput := by
  exact ⟨by decide, by decide⟩

/-- C2 amended: the Transcoder maps the scenario body to the string that
still carries the p and strong tags around the rewritten text, followed by
the blank paragraph break, the Markdown link and the Markdown image. -/
theorem c2_transcoded_output : convert_html_to_markdown c2Input = c2ActualOutput := by
  decide

/-! ## Claim C3 -/

/-- C3 counterexample: two archives whose documents share a uuid; in a
batch the second archive converts nothing because the processed set
persists from the first archive, although on its own the second archive
converts its document. -/
theorem c3_claim_false :
    process_directory [dupArchiveA, dupArchiveB] initState =
      Except.ok (true, 2, ⟨["shared"], [("output/dupA", "TA.md", "# TA\n\nx")]⟩) ∧
    process_directory [dupArchiveB] initState =
      Except.ok (true, 1, ⟨["shared"], [("output/dupB", "TB.md", "# TB\n\ny")]⟩) :=
  ⟨rfl, rfl⟩

/-- C3 amended: the processed set is a field of the converter created
once and never cleared, so it persists across archives in a batch: for
every pair of archives whose documents share a uuid, the batch converts
only the document of the first archive; the matching entry of the second
archive is skipped as already seen. -/
theorem c3_processed_set_persists (sA uA tA bA sB uB tB bB uid : String) :
    process_directory
        [mkGoodArchive sA tA uA uid bA, mkGoodArchive sB tB uB uid bB] initState =
      Except.ok (true, 2, ⟨[uid],
        [("output/" ++ sA, sanitizeTitle tA ++ ".md",
          "# " ++ tA ++ "\n\n" ++ convert_html_to_markdown bA)]⟩) := by
  have h1 : process_single_lakebook (mkGoodArchive sA tA uA uid bA) initState =
      Except.ok (true, ⟨[uid],
        [("output/" ++ sA, sanitizeTitle tA ++ ".md",
          "# " ++ tA ++ "\n\n" ++ convert_html_to_markdown bA)]⟩) := by
    simpa [initState, writeFile] using
      process_single_good sA tA uA uid bA initState (by simp [initState])
  have h2 := process_single_good_seen sB tB uB uid bB
    ⟨[uid], [("output/" ++ sA, sanitizeTitle tA ++ ".md",
      "# " ++ tA ++ "\n\n" ++ convert_html_to_markdown bA)]⟩ (by simp)
  simp [process_directory, processBatch, h1, h2]

/-! ## Claim C4 -/

/-- C4 counterexample: an archive that cannot be opened as tar raises an
uncaught tarfile read error that aborts the whole batch, so the valid
sibling archive is not processed, although on its own it converts its
document. -/
theorem c4_claim_false :
    process_directory [tarBadArchive, goodArchive2] initState =
      Except.error PyError.tarReadError ∧
    process_directory [goodArchive2] initState =
      Except.ok (true, 1, ⟨["u2"], [("output/good2", "S.md", "# S\n\nyo")]⟩) :=
  ⟨rfl, rfl⟩

/-- C4 amended: extraction that finds no non-hidden top-level directory
fails softly and only for that archive (the batch continues on the
remaining archives), but an archive that cannot be opened as the expected
tar container raises uncaught and aborts the batch. -/
theorem c4_extraction_failure_split (a b : ArchiveModel) (st : ConvState)
    (rest : List ArchiveModel)
    (ht : a.tarOk = true) (hroot : findRootDir a.rootEntries = none)
    (hb : b.tarOk = false) :
    (process_single_lakebook a st = Except.ok (false, st) ∧
     processBatch (a :: rest) st = processBatch rest st) ∧
    process_directory (b :: rest) st = Except.error PyError.tarReadError := by
  have h1 : process_single_lakebook a st = Except.ok (false, st) := by
    simp [process_single_lakebook, extract_lakebook, ht, hroot]
  have h2 : processBatch (a :: rest) st = processBatch rest st := by
    cases h : processBatch rest st <;> simp [processBatch, h1, h]
  have h3 : process_single_lakebook b st = Except.error PyError.tarReadError := by
    simp [process_single_lakebook, extract_lakebook, hb]
  exact ⟨⟨h1, h2⟩, by simp [process_directory, processBatch, h3]⟩

/-- C4 witness: the amended theorem applied to a concrete rootless
archive, a concrete unreadable archive, and a valid sibling. -/
theorem c4_extraction_failure_split_witness :
    (process_single_lakebook noRootArchive initState = Except.ok (false, initState) ∧
     processBatch [noRootArchive, goodArchive2] initState =
       processBatch [goodArchive2] initState) ∧
    process_directory [tarBadArchive, goodArchive2] initState =
      Except.error PyError.tarReadError :=
  c4_extraction_failure_split noRootArchive tarBadArchive initState [goodArchive2]
    rfl rfl rfl

/-! ## Claim C5 -/

/-- C5 counterexample: a DOC entry lacking the url key makes process_doc
raise KeyError before its try block, and the exception escapes through
the TOC loop and process_single_lakebook, so the failure is not contained
to the document. -/
theorem c5_claim_false :
    process_doc noUrlArchive noUrlEntry "output/c5" initState =
      Except.error (PyError.keyError "url") ∧
    process_single_lakebook noUrlArchive initState =
      Except.error (PyError.keyError "url") :=
  ⟨rfl, rfl⟩

/-- C5 amended: because the payload path is computed from the url field
before the exception-handling block begins, a DOC entry lacking the url
key raises an uncaught KeyError that escapes process_doc and aborts the
processing of the archive rather than being a contained per-document
failure. -/
theorem c5_missing_url_escapes (a : ArchiveModel) (doc : TocEntry) (folder : String)
    (st : ConvState) (rest : List TocEntry)
    (hurl : doc.url = none) (htype : doc.type = some "DOC") :
    process_doc a doc folder st = Except.error (PyError.keyError "url") ∧
    processToc a folder (doc :: rest) st = Except.error (PyError.keyError "url") := by
  have h1 : process_doc a doc folder st = Except.error (PyError.keyError "url") := by
    simp [process_doc, hurl]
  exact ⟨h1, by simp [processToc, htype, h1]⟩

/-- C5 witness: the amended theorem applied to the concrete entry without
a url. -/
theorem c5_missing_url_escapes_witness :
    process_doc noUrlArchive noUrlEntry "output/c5w" initState =
      Except.error (PyError.keyError "url") ∧
    processToc noUrlArchive "output/c5w" [noUrlEntry] initState =
      Except.error (PyError.keyError "url") :=
  c5_missing_url_escapes noUrlArchive noUrlEntry "output/c5w" initState [] rfl rfl

/-! ## Claim C6 -/

/-- C6: the Transcoder of the embedding is a total function from HTML
strings to Markdown strings: every input has exactly one output, and the
output depends only on the input string.  Totality of the model reflects
that no operation on the Python path (permissive parse, tag rewrites,
regex substitutions, strip) raises for a string input. -/
theorem c6_transcoder_total_function (html : String) :
    ∃ md : String, convert_html_to_markdown html = md ∧
      ∀ md2 : String, convert_html_to_markdown html = md2 → md2 = md :=
  ⟨convert_html_to_markdown html, rfl, fun _ h => h.symm⟩

/-! ## Claim C7 -/

/-- C7: a DOC entry whose payload file is missing, unparseable, or lacks
the nested body field fails inside the try block of process_doc: the
function returns False with only the identity recorded, nothing is
written, and the TOC loop continues over the remaining entries exactly as
it would from that state. -/
theorem c7_payload_failure_contained (a : ArchiveModel) (doc : TocEntry) (folder u : String)
    (st : ConvState)
    (htype : doc.type = some "DOC") (hurl : doc.url = some u)
    (hnew : docIdFor doc u ∉ st.processed_files)
    (hbad : lookupFile a.docs u = FileModel.missing ∨
            lookupFile a.docs u = FileModel.badJson ∨
            ∃ v, lookupFile a.docs u = FileModel.json v ∧ docBody? v = none) :
    process_doc a doc folder st =
      Except.ok (false, ⟨docIdFor doc u :: st.processed_files, st.written⟩) ∧
    ∀ rest, processToc a folder (doc :: rest) st =
      processToc a folder rest ⟨docIdFor doc u :: st.processed_files, st.written⟩ := by
  have hnew2 : doc.uuid.getD (pathFileName (u ++ ".json")) ∉ st.processed_files := by
    simpa [docIdFor] using hnew
  have h1 : process_doc a doc folder st =
      Except.ok (false, ⟨docIdFor doc u :: st.processed_files, st.written⟩) := by
    rcases hbad with h | h | ⟨v, hv, hb⟩
    · simp [process_doc, hurl, docIdFor, hnew2, h]
    · simp [process_doc, hurl, docIdFor, hnew2, h]
    · simp [process_doc, hurl, docIdFor, hnew2, hv, hb]
  refine ⟨h1, fun rest => ?_⟩
  cases h2 : processToc a folder rest ⟨docIdFor doc u :: st.processed_files, st.written⟩ <;>
    simp [processToc, htype, h1, h2]

/-- C7 witness: the containment theorem applied to the concrete archive
whose single payload file is missing. -/
theorem c7_payload_failure_contained_witness :
    process_doc missingPayloadArchive missingPayloadEntry "output/c7" initState =
      Except.ok (false, ⟨["u7"], []⟩) ∧
    processToc missingPayloadArchive "output/c7" [missingPayloadEntry] initState =
      processToc missingPayloadArchive "output/c7" [] ⟨["u7"], []⟩ := by
  have h := c7_payload_failure_contained missingPayloadArchive missingPayloadEntry
    "output/c7" "nope" initState rfl rfl (by decide) (Or.inl rfl)
  exact ⟨h.1, h.2 []⟩

/-! ## Claim C8 -/

/-- C8: two DOC entries sharing a uuid, the first with a well-formed
payload: processing the TOC from a fresh state writes exactly one output
file, counts exactly one success, and the second entry is a no-op
reported as not newly converted. -/
theorem c8_duplicate_uuid_single_file (a : ArchiveModel) (folder : String)
    (e1 e2 : TocEntry) (uid u1 u2 body : String) (v : Json)
    (h1t : e1.type = some "DOC") (h2t : e2.type = some "DOC")
    (h1uu : e1.uuid = some uid) (h2uu : e2.uuid = some uid)
    (h1url : e1.url = some u1) (h2url : e2.url = some u2)
    (hpay : lookupFile a.docs u1 = FileModel.json v) (hbody : docBody? v = some body) :
    processToc a folder [e1, e2] initState =
      Except.ok (1, ⟨[uid],
        [(folder, sanitizeTitle (e1.title.getD untitledDoc) ++ ".md",
          "# " ++ e1.title.getD untitledDoc ++ "\n\n" ++ convert_html_to_markdown body)]⟩) := by
  have hd1 : process_doc a e1 folder initState =
      Except.ok (true, ⟨[uid],
        [(folder, sanitizeTitle (e1.title.getD untitledDoc) ++ ".md",
          "# " ++ e1.title.getD untitledDoc ++ "\n\n" ++ convert_html_to_markdown body)]⟩) := by
    simp [process_doc, h1url, h1uu, initState, hpay, hbody, writeFile]
  have hd2 : process_doc a e2 folder
      ⟨[uid], [(folder, sanitizeTitle (e1.title.getD untitledDoc) ++ ".md",
        "# " ++ e1.title.getD untitledDoc ++ "\n\n" ++ convert_html_to_markdown body)]⟩ =
      Except.ok (false, ⟨[uid],
        [(folder, sanitizeTitle (e1.title.getD untitledDoc) ++ ".md",
          "# " ++ e1.title.getD untitledDoc ++ "\n\n" ++ convert_html_to_markdown body)]⟩) := by
    simp [process_doc, h2url, h2uu]
  simp [processToc, h1t, h2t, hd1, hd2]

/-- C8 witness: the de-duplication theorem applied to the concrete
archive whose TOC lists the uuid u8 twice. -/
theorem c8_duplicate_uuid_single_file_witness :
    processToc c8Archive "output/c8" [c8EntryOne, c8EntryTwo] initState =
      Except.ok (1, ⟨["u8"], [("output/c8", "T8.md", "# T8\n\nhi")]⟩) :=
  c8_duplicate_uuid_single_file c8Archive "output/c8" c8EntryOne c8EntryTwo
    "u8" "d8" "d8b" "hi" (Json.obj [("doc", Json.obj [("body", Json.str "hi")])])
    rfl rfl rfl rfl rfl rfl rfl rfl

/-! ## Claim C9 -/

/-- C9: title sanitization is total: for every title, the computed output
filename contains none of the nine filesystem-unsafe characters, each
occurrence having been replaced by an underscore. -/
theorem c9_sanitize_filename_safe (title : String) :
    (sanitizeTitle title ++ ".md").data.all (fun c => !isBadFileChar c) = true := by
  rw [String.data_append, List.all_append]
  have h1 : (sanitizeTitle title).data.all (fun c => !isBadFileChar c) = true := by
    unfold sanitizeTitle
    rw [List.all_eq_true]
    intro c hc
    obtain ⟨d, _, rfl⟩ := List.mem_map.mp hc
    by_cases h : isBadFileChar d = true
    · rw [if_pos h]; decide
    · rw [if_neg h]
      simp only [Bool.not_eq_true] at h
      simp [h]
  rw [h1]
  decide

/-! ## Run-capping lemmas for Claim C10 -/

/-- A smaller preceding-run count only weakens the run predicate. -/
theorem okRunsAux_mono (c : Char) (cap : Nat) (l : List Char) :
    ∀ k j, j ≤ k → okRunsAux c cap k l = true → okRunsAux c cap j l = true := by
  induction l with
  | nil => intro k j _ _; rfl
  | cons x xs ih =>
    intro k j hj h
    by_cases hx : x = c
    · simp only [okRunsAux, if_pos hx] at h ⊢
      by_cases hk : k + 1 ≤ cap
      · rw [if_pos hk] at h
        rw [if_pos (le_trans (Nat.add_le_add_right hj 1) hk)]
        exact ih (k + 1) (j + 1) (Nat.add_le_add_right hj 1) h
      · rw [if_neg hk] at h
        exact absurd h (by simp)
    · simp only [okRunsAux, if_neg hx] at h ⊢
      exact h

/-- Once the count has reached the cap, its exact value no longer
matters to capRunAux. -/
theorem capRunAux_congr_ge (c : Char) (cap : Nat) (l : List Char) :
    ∀ j j2, cap ≤ j → cap ≤ j2 → capRunAux c cap j l = capRunAux c cap j2 l := by
  induction l with
  | nil => intro j j2 _ _; rfl
  | cons x xs ih =>
    intro j j2 hj hj2
    by_cases hx : x = c
    · simp only [capRunAux, if_pos hx, if_neg (Nat.not_lt.mpr hj), if_neg (Nat.not_lt.mpr hj2)]
      exact ih (j + 1) (j2 + 1) (le_trans hj (Nat.le_succ j)) (le_trans hj2 (Nat.le_succ j2))
    · simp only [capRunAux, if_neg hx]

/-- The output of capRunAux satisfies the run predicate it enforces. -/
theorem okRunsAux_capRunAux (c : Char) (cap : Nat) (l : List Char) :
    ∀ k, k ≤ cap → okRunsAux c cap k (capRunAux c cap k l) = true := by
  induction l with
  | nil => intro k _; rfl
  | cons x xs ih =>
    intro k hk
    by_cases hx : x = c
    · subst hx
      by_cases hlt : k < cap
      · have h1 : k + 1 ≤ cap := Nat.succ_le_of_lt hlt
        simp only [capRunAux, if_pos rfl, if_pos hlt, okRunsAux, if_pos h1]
        exact ih (k + 1) hlt
      · have hkc : k = cap := Nat.le_antisymm hk (Nat.not_lt.mp hlt)
        subst hkc
        simp only [capRunAux, if_pos rfl, if_neg hlt]
        rw [capRunAux_congr_ge x k xs (k + 1) k (Nat.le_succ k) (le_refl k)]
        exact ih k (le_refl k)
    · simp only [capRunAux, if_neg hx, okRunsAux, if_neg hx]
      exact ih 0 (Nat.zero_le cap)

/-- Lists already satisfying the run predicate are fixed by capRunAux. -/
theorem okRunsAux_fix (c : Char) (cap : Nat) (l : List Char) :
    ∀ k, okRunsAux c cap k l = true → capRunAux c cap k l = l := by
  induction l with
  | nil => intro k _; rfl
  | cons x xs ih =>
    intro k h
    by_cases hx : x = c
    · simp only [okRunsAux, if_pos hx] at h
      by_cases hk : k + 1 ≤ cap
      · rw [if_pos hk] at h
        subst hx
        have h2 : k < cap := Nat.lt_of_succ_le hk
        simp only [capRunAux, if_pos rfl, if_pos h2]
        rw [ih (k + 1) h]
        simp
      · rw [if_neg hk] at h
        exact absurd h (by simp)
    · simp only [okRunsAux, if_neg hx] at h
      simp only [capRunAux, if_neg hx]
      rw [ih 0 h]

/-- The run predicate of the output of capRun, starting fresh. -/
theorem okRuns_capRun (c : Char) (cap : Nat) (l : List Char) :
    okRuns c cap (capRun c cap l) = true :=
  okRunsAux_capRunAux c cap l 0 (Nat.zero_le cap)

/-- capRun fixes every list whose runs are already within the cap. -/
theorem capRun_fix (c : Char) (cap : Nat) (l : List Char)
    (h : okRuns c cap l = true) : capRun c cap l = l :=
  okRunsAux_fix c cap l 0 h

/-- Capping runs of a different character, which keeps at least one
occurrence of every run when the cap is positive, cannot lengthen runs
of c. -/
theorem okRunsAux_capRunAux_ne (c d : Char) (cap m : Nat) (hcd : c ≠ d) (hm : 1 ≤ m)
    (l : List Char) :
    ∀ k j, okRunsAux c cap k l = true →
      okRunsAux c cap (if j = 0 then k else 0) (capRunAux d m j l) = true := by
  induction l with
  | nil =>
    intro k j _
    simp [capRunAux, okRunsAux]
  | cons x xs ih =>
    intro k j h
    by_cases hxd : x = d
    · subst hxd
      simp only [okRunsAux, if_neg (Ne.symm hcd)] at h
      by_cases hj : j < m
      · simp only [capRunAux, if_pos rfl, if_pos hj, okRunsAux, if_neg (Ne.symm hcd)]
        have h2 := ih 0 (j + 1) h
        simpa using h2
      · simp only [capRunAux, if_pos rfl, if_neg hj]
        have hj0 : ¬(j = 0) := by omega
        rw [if_neg hj0]
        have h2 := ih 0 (j + 1) h
        simpa using h2
    · by_cases hxc : x = c
      · subst hxc
        simp only [okRunsAux, if_pos rfl] at h
        by_cases hk : k + 1 ≤ cap
        · rw [if_pos hk] at h
          simp only [capRunAux, if_neg hxd, okRunsAux, if_pos rfl]
          have hK : (if j = 0 then k else 0) + 1 ≤ cap := by
            by_cases hj : j = 0
            · simpa [hj] using hk
            · rw [if_neg hj]; omega
          rw [if_pos hK]
          have h2 := ih (k + 1) 0 h
          simp only [if_pos rfl] at h2
          refine okRunsAux_mono x cap _ (k + 1) ((if j = 0 then k else 0) + 1) ?_ h2
          by_cases hj : j = 0
          · simp [hj]
          · rw [if_neg hj]; omega
        · rw [if_neg hk] at h
          exact absurd h (by simp)
      · simp only [okRunsAux, if_neg hxc] at h
        simp only [capRunAux, if_neg hxd, okRunsAux, if_neg hxc]
        have h2 := ih 0 0 h
        simpa using h2

/-- The fresh-start corollary: capping runs of a different character with
a positive cap preserves the run predicate for c. -/
theorem okRuns_capRun_ne (c d : Char) (cap m : Nat) (hcd : c ≠ d) (hm : 1 ≤ m)
    (l : List Char) (h : okRuns c cap l = true) :
    okRuns c cap (capRun d m l) = true := by
  have h2 := okRunsAux_capRunAux_ne c d cap m hcd hm l 0 0 h
  simpa [capRun, okRuns] using h2

/-- A failing run predicate exhibits an overlong run as an infix of the
list extended by the pending count. -/
theorem okRunsAux_false_infix (c : Char) (cap : Nat) (l : List Char) :
    ∀ k, okRunsAux c cap k l = false →
      List.replicate (cap + 1) c <:+: (List.replicate k c ++ l) := by
  induction l with
  | nil => intro k h; simp [okRunsAux] at h
  | cons x xs ih =>
    intro k h
    by_cases hx : x = c
    · subst hx
      have hshift : List.replicate k x ++ x :: xs = List.replicate (k + 1) x ++ xs := by
        rw [List.replicate_succ' k x, List.append_assoc]
        rfl
      simp only [okRunsAux, if_pos rfl] at h
      by_cases hk : k + 1 ≤ cap
      · rw [if_pos hk] at h
        rw [hshift]
        exact ih (k + 1) h
      · have hpre : List.replicate (cap + 1) x <+: List.replicate (k + 1) x :=
          ⟨List.replicate (k + 1 - (cap + 1)) x, by
            rw [← List.replicate_add]
            congr 1
            omega⟩
        rw [hshift]
        obtain ⟨t, ht⟩ := hpre
        exact ⟨[], t ++ xs, by rw [List.nil_append, ← List.append_assoc, ht]⟩
    · simp only [okRunsAux, if_neg hx] at h
      have h2 := ih 0 h
      rw [List.replicate_zero, List.nil_append] at h2
      exact h2.trans ⟨List.replicate k c ++ [x], [], by simp⟩

/-- The run predicate only looks at a suffix once the prefix is gone. -/
theorem okRunsAux_append_true (c : Char) (cap : Nat) (s : List Char) :
    ∀ k u, okRunsAux c cap k (s ++ u) = true → ∃ k2, okRunsAux c cap k2 u = true := by
  induction s with
  | nil => intro k u h; exact ⟨k, h⟩
  | cons x xs ih =>
    intro k u h
    by_cases hx : x = c
    · simp only [List.cons_append, okRunsAux, if_pos hx] at h
      by_cases hk : k + 1 ≤ cap
      · rw [if_pos hk] at h
        exact ih (k + 1) u h
      · rw [if_neg hk] at h
        exact absurd h (by simp)
    · simp only [List.cons_append, okRunsAux, if_neg hx] at h
      exact ih 0 u h

/-- A leading replicate forces the count bound, unless it is empty. -/
theorem okRunsAux_replicate_bound (c : Char) (cap : Nat) (t : List Char) :
    ∀ m k, okRunsAux c cap k (List.replicate m c ++ t) = true →
      m = 0 ∨ k + m ≤ cap := by
  intro m
  induction m with
  | zero => intro k _; exact Or.inl rfl
  | succ m ih =>
    intro k h
    rw [List.replicate_succ, List.cons_append] at h
    simp only [okRunsAux, if_pos rfl] at h
    by_cases hk : k + 1 ≤ cap
    · rw [if_pos hk] at h
      rcases ih (k + 1) h with h0 | hle
      · subst h0
        exact Or.inr (by omega)
      · exact Or.inr (by omega)
    · rw [if_neg hk] at h
      exact absurd h (by simp)

/-- Characterization: the run predicate holds exactly when no overlong
replicate is an infix. -/
theorem okRuns_iff (c : Char) (cap : Nat) (l : List Char) :
    okRuns c cap l = true ↔ ¬(List.replicate (cap + 1) c <:+: l) := by
  constructor
  · intro h hinf
    obtain ⟨s, t, hst⟩ := hinf
    rw [okRuns, ← hst, List.append_assoc] at h
    obtain ⟨k2, hk2⟩ := okRunsAux_append_true c cap s 0 _ h
    rcases okRunsAux_replicate_bound c cap t (cap + 1) k2 hk2 with h0 | hle
    · omega
    · omega
  · intro hni
    by_contra hne
    have hf : okRuns c cap l = false := by
      cases hcase : okRuns c cap l
      · rfl
      · exact absurd hcase hne
    have h2 := okRunsAux_false_infix c cap l 0 hf
    rw [List.replicate_zero, List.nil_append] at h2
    exact hni h2

/-- The run predicate descends to every infix. -/
theorem okRuns_infix (c : Char) (cap : Nat) (l m : List Char)
    (h : okRuns c cap l = true) (hm : m <:+: l) : okRuns c cap m = true := by
  rw [okRuns_iff] at h ⊢
  exact fun hinf => h (hinf.trans hm)

/-! ## Strip lemmas for Claim C10 -/

/-- Removing leading whitespace yields an infix. -/
theorem stripLeft_within (l : List Char) : stripLeft l <:+: l :=
  (List.dropWhile_suffix isWsChar).isInfix

/-- The right strip is the reversed-dropWhile operation of Mathlib. -/
theorem stripRight_eq_rdrop (l : List Char) : stripRight l = List.rdropWhile isWsChar l :=
  rfl

/-- Removing trailing whitespace yields an infix. -/
theorem stripRight_within (l : List Char) : stripRight l <:+: l := by
  rw [stripRight_eq_rdrop]
  obtain ⟨t, ht⟩ := List.rdropWhile_prefix isWsChar l
  exact ⟨[], t, by rw [List.nil_append, ht]⟩

/-- Stripping both ends yields an infix. -/
theorem stripChars_within (l : List Char) : stripChars l <:+: l :=
  (stripRight_within (stripLeft l)).trans (stripLeft_within l)

/-- The run predicate survives stripping. -/
theorem okRuns_stripChars (c : Char) (cap : Nat) (l : List Char)
    (h : okRuns c cap l = true) : okRuns c cap (stripChars l) = true :=
  okRuns_infix c cap l _ h (stripChars_within l)

/-- After a strip, the front carries no whitespace to drop. -/
theorem stripLeft_stripRight_stripLeft (l : List Char) :
    stripLeft (stripRight (stripLeft l)) = stripRight (stripLeft l) := by
  show List.dropWhile isWsChar (List.rdropWhile isWsChar (List.dropWhile isWsChar l)) =
    List.rdropWhile isWsChar (List.dropWhile isWsChar l)
  rw [List.dropWhile_eq_self_iff]
  intro hl
  have hpre := List.rdropWhile_prefix isWsChar (l.dropWhile isWsChar)
  have hlen : 0 < (l.dropWhile isWsChar).length := lt_of_lt_of_le hl hpre.length_le
  have hget := hpre.getElem (n := 0) hl
  have hnot := List.dropWhile_get_zero_not isWsChar l hlen
  simp only [List.get_eq_getElem] at hnot ⊢
  rw [hget]
  exact hnot

/-- str.strip is idempotent. -/
theorem stripChars_idem (l : List Char) : stripChars (stripChars l) = stripChars l := by
  show stripRight (stripLeft (stripRight (stripLeft l))) = _
  rw [stripLeft_stripRight_stripLeft, stripRight_eq_rdrop, stripRight_eq_rdrop]
  exact List.rdropWhile_idempotent isWsChar _

/-! ## Plain-text behaviour of the parser and the passes -/

/-- Building a string back from its data changes nothing. -/
theorem string_mk_data : ∀ s : String, String.mk s.data = s
  | ⟨_⟩ => rfl

/-- The tokenizer yields nothing on empty input, whatever the fuel. -/
theorem tokenize_nil (f : Nat) : tokenize f [] = [] := by
  cases f <;> rfl

/-- A nonempty input without a left angle bracket is one text chunk. -/
theorem tokenize_plain (f : Nat) (c : Char) (cs : List Char)
    (h : ∀ x ∈ c :: cs, x ≠ '<') :
    tokenize (f + 1) (c :: cs) = [Token.chunk (String.mk (c :: cs))] := by
  have hc : ¬(c = '<') := h c (List.mem_cons_self c cs)
  have htake : cs.takeWhile (fun x => x != '<') = cs :=
    List.takeWhile_eq_self_iff.mpr
      (fun a ha => by simpa using h a (List.mem_cons_of_mem c ha))
  have hdrop : cs.dropWhile (fun x => x != '<') = [] :=
    List.dropWhile_eq_nil_iff.mpr
      (fun a ha => by simpa using h a (List.mem_cons_of_mem c ha))
  simp only [tokenize, if_neg hc, htake, hdrop, tokenize_nil]

/-- A nonempty string without a left angle bracket parses to one text
node holding the string itself. -/
theorem parseHtml_plain (t : String) (h : plainOutput t = true) (hne : t.data ≠ []) :
    parseHtml t = [Node.text t] := by
  have hall : ∀ x ∈ t.data, x ≠ '<' := by
    intro x hx
    have h2 := List.all_eq_true.mp h x hx
    simpa using h2
  show buildTokens (tokenize (t.length + 1) t.data) ([], []) = [Node.text t]
  cases hd : t.data with
  | nil => exact absurd hd hne
  | cons c cs =>
    have hall2 : ∀ x ∈ c :: cs, x ≠ '<' := by
      rw [← hd]
      exact hall
    have hmk : String.mk (c :: cs) = t := by
      rw [← hd]
    rw [tokenize_plain t.length c cs hall2, hmk]
    rfl

/-- The passes and the serializer ignore leftover fuel on empty input. -/
theorem insertPBrF_nil (f : Nat) : insertPBrF f [] = [] := by cases f <;> rfl

/-- Same for the strong pass. -/
theorem strongPassF_nil (f : Nat) : strongPassF f [] = [] := by cases f <;> rfl

/-- Same for the em pass. -/
theorem emPassF_nil (f : Nat) : emPassF f [] = [] := by cases f <;> rfl

/-- Same for the img pass. -/
theorem imgPassF_nil (f : Nat) : imgPassF f [] = [] := by cases f <;> rfl

/-- Same for the a pass. -/
theorem aPassF_nil (f : Nat) : aPassF f [] = [] := by cases f <;> rfl

/-- Same for the serializer. -/
theorem serializeNodesF_nil (f : Nat) : serializeNodesF f [] = "" := by cases f <;> rfl

/-- The paragraph-break pass does not touch a lone text node. -/
theorem insertPBrF_text (f : Nat) (hf : 0 < f) (u : String) :
    insertPBrF f [Node.text u] = [Node.text u] := by
  cases f with
  | zero => omega
  | succ f => simp [insertPBrF, insertPBrF_nil]

/-- The strong pass does not touch a lone text node. -/
theorem strongPassF_text (f : Nat) (hf : 0 < f) (u : String) :
    strongPassF f [Node.text u] = [Node.text u] := by
  cases f with
  | zero => omega
  | succ f => simp [strongPassF, strongPassF_nil]

/-- The em pass does not touch a lone text node. -/
theorem emPassF_text (f : Nat) (hf : 0 < f) (u : String) :
    emPassF f [Node.text u] = [Node.text u] := by
  cases f with
  | zero => omega
  | succ f => simp [emPassF, emPassF_nil]

/-- The img pass does not touch a lone text node. -/
theorem imgPassF_text (f : Nat) (hf : 0 < f) (u : String) :
    imgPassF f [Node.text u] = [Node.text u] := by
  cases f with
  | zero => omega
  | succ f => simp [imgPassF, imgPassF_nil]

/-- The a pass does not touch a lone text node. -/
theorem aPassF_text (f : Nat) (hf : 0 < f) (u : String) :
    aPassF f [Node.text u] = [Node.text u] := by
  cases f with
  | zero => omega
  | succ f => simp [aPassF, aPassF_nil]

/-- Serializing a lone text node returns its string. -/
theorem serializeNodesF_text (f : Nat) (hf : 0 < f) (u : String) :
    serializeNodesF f [Node.text u] = u := by
  cases f with
  | zero => omega
  | succ f =>
    show u ++ serializeNodesF f [] = u
    rw [serializeNodesF_nil]
    show String.mk (u.data ++ "".data) = u
    rw [show ("".data : List Char) = [] from rfl, List.append_nil, string_mk_data]

/-- On input that is plain text for the parser, the converter reduces to
its whitespace normalization. -/
theorem convert_plain (t : String) (h : plainOutput t = true) :
    convert_html_to_markdown t =
      String.mk (stripChars (capRun ' ' 1 (capRun '\n' 2 t.data))) := by
  by_cases hne : t.data = []
  · cases t with
    | mk d =>
      simp only [String.data] at hne
      subst hne
      rfl
  · have hparse := parseHtml_plain t h hne
    have hfuel : 0 < treeFuel t := by
      show 0 < 8 * t.length + 8
      omega
    simp only [convert_html_to_markdown]
    rw [hparse, insertPBrF_text _ hfuel, strongPassF_text _ hfuel, emPassF_text _ hfuel,
      imgPassF_text _ hfuel, aPassF_text _ hfuel, serializeNodesF_text _ hfuel]

/-! ## Claim C10 -/

/-- C10: when the transcoded result of an input is plain text, free of
any tag the Transcoder handles, a second application of the Transcoder
returns it unchanged: the parse yields a single text node, the five
passes do not touch it, serialization returns the same string, and the
newline, space and strip normalizations are idempotent. -/
theorem c10_transcoder_idempotent_on_plain (s : String)
    (h : plainOutput (convert_html_to_markdown s) = true) :
    convert_html_to_markdown (convert_html_to_markdown s) =
      convert_html_to_markdown s := by
  obtain ⟨X, hdata⟩ : ∃ X, (convert_html_to_markdown s).data =
      stripChars (capRun ' ' 1 (capRun '\n' 2 X)) := ⟨_, rfl⟩
  have hNl : okRuns '\n' 2 (convert_html_to_markdown s).data = true := by
    rw [hdata]
    exact okRuns_stripChars _ _ _
      (okRuns_capRun_ne '\n' ' ' 2 1 (by decide) (le_refl 1) _ (okRuns_capRun _ _ _))
  have hSp : okRuns ' ' 1 (convert_html_to_markdown s).data = true := by
    rw [hdata]
    exact okRuns_stripChars _ _ _ (okRuns_capRun _ _ _)
  have hst : stripChars (convert_html_to_markdown s).data =
      (convert_html_to_markdown s).data := by
    rw [hdata]
    exact stripChars_idem _
  rw [convert_plain _ h, capRun_fix _ _ _ hNl, capRun_fix _ _ _ hSp, hst, string_mk_data]

/-- C10 witness: an input whose transcoded result is plain text, checked
concretely, to which the idempotence theorem applies. -/
theorem c10_transcoder_idempotent_on_plain_witness :
    plainOutput (convert_html_to_markdown "<img src=\"u\">") = true ∧
    convert_html_to_markdown (convert_html_to_markdown "<img src=\"u\">") =
      convert_html_to_markdown "<img src=\"u\">" :=
  ⟨by decide, c10_transcoder_idempotent_on_plain "<img src=\"u\">" (by decide)⟩

end Lakebook2Md
